import Mathlib

/-!
Verification of the wpull recursive web archiver against its source.

The development shallowly embeds the parts of the code base that the
checked properties speak about:

* `wpull/database.py` — the SQLite URL frontier (`SQLiteURLTable`),
* `wpull/engine.py` — `URLItem`, `Engine._update_exit_code`,
* `wpull/processor.py` — `WebProcessorSession` response/error handling,
* `wpull/hook.py` — `HookEnvironment._add_hooked_url`,
* `wpull/document/sitemap.py` — `SitemapReader.iter_links`.

Tables are lists of rows, mutation is explicit state passing, Python
exceptions are `Except` values.
-/

namespace Wpull

/-- Python exceptions that the embedded code can raise. -/
inductive PyErr
  | notFound
  | indexError
  | keyError
  | assertionError
deriving DecidableEq, Repr

/-- URL status strings from `wpull.database.Status`. -/
def Status.todo : String := "todo"

def Status.in_progress : String := "in_progress"

def Status.done : String := "done"

def Status.error : String := "error"

def Status.skipped : String := "skipped"

/-- One row of the `urls` table, mirroring the columns created by
`SQLiteURLTable._create_tables`: url (primary key), status (NOT NULL),
try_count (default 0), level (default 0), and the nullable columns
top_url, status_code, referrer, inline, link_type, url_encoding,
request. -/
structure Row where
  url : String
  status : String
  try_count : Int
  level : Int
  top_url : Option String
  status_code : Option Int
  referrer : Option String
  inline : Option Int
  link_type : Option String
  url_encoding : Option String
  request : Option String
deriving DecidableEq, Repr

/-- Column names of the `urls` table that can appear as `kwargs` keys. -/
inductive Field
  | status
  | try_count
  | level
  | top_url
  | status_code
  | referrer
  | inline
  | link_type
  | url_encoding
  | request
deriving DecidableEq, Repr

/-- A `key = value` pair from a Python `kwargs` dict, typed per column. -/
inductive FieldVal
  | status (s : String)
  | try_count (n : Int)
  | level (n : Int)
  | top_url (v : Option String)
  | status_code (v : Option Int)
  | referrer (v : Option String)
  | inline (v : Option Int)
  | link_type (v : Option String)
  | url_encoding (v : Option String)
  | request (v : Option String)
deriving DecidableEq, Repr

/-- The column a `FieldVal` assigns. -/
def FieldVal.field : FieldVal → Field
  | .status _ => .status
  | .try_count _ => .try_count
  | .level _ => .level
  | .top_url _ => .top_url
  | .status_code _ => .status_code
  | .referrer _ => .referrer
  | .inline _ => .inline
  | .link_type _ => .link_type
  | .url_encoding _ => .url_encoding
  | .request _ => .request

/-- `UPDATE urls SET key = value` applied to a single row. -/
def Row.setField (r : Row) : FieldVal → Row
  | .status s => { r with status := s }
  | .try_count n => { r with try_count := n }
  | .level n => { r with level := n }
  | .top_url v => { r with top_url := v }
  | .status_code v => { r with status_code := v }
  | .referrer v => { r with referrer := v }
  | .inline v => { r with inline := v }
  | .link_type v => { r with link_type := v }
  | .url_encoding v => { r with url_encoding := v }
  | .request v => { r with request := v }

/-- Whether a row's column holds the given value. -/
def Row.agrees (r : Row) : FieldVal → Bool
  | .status s => r.status = s
  | .try_count n => r.try_count = n
  | .level n => r.level = n
  | .top_url v => r.top_url = v
  | .status_code v => r.status_code = v
  | .referrer v => r.referrer = v
  | .inline v => r.inline = v
  | .link_type v => r.link_type = v
  | .url_encoding v => r.url_encoding = v
  | .request v => r.request = v

/-- The `urls` table: a list of rows (insertion order = rowid order). -/
abbrev Table := List Row

/-- The row created by `INSERT OR IGNORE INTO urls (url, status)
VALUES (?, 'todo')`: schema defaults fill the remaining columns. -/
def Row.initial (url : String) : Row :=
  { url := url, status := Status.todo, try_count := 0, level := 0,
    top_url := none, status_code := none, referrer := none,
    inline := none, link_type := none, url_encoding := none,
    request := none }

namespace SQLiteURLTable

/-- `UPDATE urls SET key = value WHERE url = ?`: at most the rows whose
`url` matches change (with a primary key, at most one). -/
def updateField (t : Table) (url : String) (fv : FieldVal) : Table :=
  t.map fun r => if r.url = url then r.setField fv else r

/-- `UPDATE urls SET try_count = try_count + 1 WHERE url = ?`. -/
def incrementTry (t : Table) (url : String) : Table :=
  t.map fun r => if r.url = url then { r with try_count := r.try_count + 1 } else r

/-- `INSERT OR IGNORE INTO urls (url, status) VALUES (?, 'todo')`. -/
def insertOrIgnore (t : Table) (url : String) : Table :=
  if t.any fun r => r.url = url then t else t ++ [Row.initial url]

/-- `SQLiteURLTable.add(urls, **kwargs)`: first insert each URL only if
absent, then update every provided attribute on all supplied URLs. -/
def add (t : Table) (urls : List String) (kwargs : List FieldVal) : Table :=
  let t1 := urls.foldl insertOrIgnore t
  urls.foldl (fun acc url => kwargs.foldl (fun acc2 fv => updateField acc2 url fv) acc) t1

/-- The `WHERE status = ? [AND level < ?]` filter of `get_and_update`. -/
def rowMatches (status : String) (level : Option Int) (r : Row) : Bool :=
  r.status = status && match level with
    | none => true
    | some l => decide (r.level < l)

/-- `SQLiteURLTable.__getitem__`: raises `IndexError` when the URL is
absent. -/
def getitem (t : Table) (url : String) : Except PyErr Row :=
  match t.find? (fun r => r.url = url) with
  | none => .error .indexError
  | some r => .ok r

/-- `SQLiteURLTable.get_and_update(status, new_status, level)`: select
one matching row, raise `NotFound` when there is none, otherwise (when
`new_status` is truthy) set its status and re-fetch it. -/
def get_and_update (t : Table) (status : String) (new_status : Option String)
    (level : Option Int) : Except PyErr (Row × Table) :=
  match t.find? (rowMatches status level) with
  | none => .error .notFound
  | some row =>
    match new_status with
    | none => .ok (row, t)
    | some ns =>
      if ns.isEmpty then .ok (row, t)
      else
        let t2 := updateField t row.url (.status ns)
        match getitem t2 row.url with
        | .error e => .error e
        | .ok row2 => .ok (row2, t2)

/-- `SQLiteURLTable.update(url, increment_try_count, **kwargs)`. -/
def update (t : Table) (url : String) (inc : Bool) (kwargs : List FieldVal) : Table :=
  let t1 := if inc then incrementTry t url else t
  kwargs.foldl (fun acc fv => updateField acc url fv) t1

/-- Modelled from the spec: `remove_one(url)`: deletes the row.  The
`SQLiteURLTable` in the source tree does not define it; only its caller
`HookEnvironment._add_hooked_url` is present. -/
def remove_one (t : Table) (url : String) : Table :=
  t.filter fun r => r.url ≠ url

/-- `collections.Mapping.__contains__` as inherited by `BaseURLTable`:
it calls `__getitem__` and converts only `KeyError` to `False`; any
other exception propagates. -/
def containsUrl (t : Table) (url : String) : Except PyErr Bool :=
  match getitem t url with
  | .ok _ => .ok true
  | .error .keyError => .ok false
  | .error e => .error e

end SQLiteURLTable

/-- The transient per-item state kept by `engine.URLItem`: its URL and
the `_try_count_incremented` / `_processed` flags. -/
structure Item where
  url : String
  try_count_incremented : Bool
  processed : Bool
deriving DecidableEq, Repr

/-- Python `x or y` on a nullable string: `None` and `''` are falsy. -/
def pyOr (o : Option String) (d : String) : String :=
  match o with
  | some s => if s.isEmpty then d else s
  | none => d

namespace URLItem

/-- `URLItem.set_status(status, increment_try_count=True)`: the
`assert not self._try_count_incremented` aborts any call after the
try count was bumped; otherwise the row is updated and the item is
marked processed. -/
def set_status (it : Item) (t : Table) (status : String) (inc : Bool := true) :
    Except PyErr (Item × Table) :=
  if it.try_count_incremented then .error .assertionError
  else
    let it1 := if inc then { it with try_count_incremented := true } else it
    let t1 := SQLiteURLTable.update t it.url inc [.status status]
    .ok ({ it1 with processed := true }, t1)

/-- `URLItem.skip()`: set status `skipped` without touching try_count. -/
def skip (it : Item) (t : Table) : Item × Table :=
  ({ it with processed := true },
    SQLiteURLTable.update t it.url false [.status Status.skipped])

/-- `URLItem.set_value(**kwargs)`. -/
def set_value (it : Item) (t : Table) (kwargs : List FieldVal) : Table :=
  SQLiteURLTable.update t it.url false kwargs

/-- `URLItem.add_inline_url_infos`: enqueue inline child URLs with
`inline=1`, `level = parent + 1`, `referrer = parent url` and the
inherited `top_url` (`record.top_url or record.url`). -/
def add_inline_url_infos (rec : Row) (t : Table) (urls : List String) : Table :=
  SQLiteURLTable.add t urls
    [.inline (some 1), .level (rec.level + 1), .referrer (some rec.url),
      .top_url (some (pyOr rec.top_url rec.url))]

/-- `URLItem.add_linked_url_infos`: enqueue linked child URLs with
`level = parent + 1`, `referrer = parent url` and the inherited
`top_url`. -/
def add_linked_url_infos (rec : Row) (t : Table) (urls : List String) : Table :=
  SQLiteURLTable.add t urls
    [.level (rec.level + 1), .referrer (some rec.url),
      .top_url (some (pyOr rec.top_url rec.url))]

/-- Modelled from the spec: `URLItem` exposes
`add_child_url(info, inline, link_type, post_data, replace)`; the
version of `engine.py` in the source tree predates it, only its caller
in `hook.py` is present.  Per the spec's child rules it enqueues the
URL with `level = parent + 1`, the parent as referrer, the inherited
`top_url`, and the supplied attributes. -/
def add_child_url (rec : Row) (t : Table) (url : String) (inl : Option Int)
    (lt : Option String) (pd : Option String) : Table :=
  SQLiteURLTable.add t [url]
    [.inline inl, .link_type lt, .request pd,
      .level (rec.level + 1), .referrer (some rec.url),
      .top_url (some (pyOr rec.top_url rec.url))]

end URLItem

namespace Engine

/-- `Engine._update_exit_code(code)`: keep the minimum positive code. -/
def update_exit_code (cur code : Nat) : Nat :=
  if code ≠ 0 then
    if cur ≠ 0 then min cur code else code
  else cur

end Engine

namespace HookEnvironment

/-- `HookEnvironment._add_hooked_url`: process one URL dict returned by
a script.  `parses` stands for `parse_url_or_log` succeeding (the URL
parser is an external collaborator); on failure the function returns
without touching the table.  When `replace` is truthy the row is first
deleted via `remove_one`, then the URL is re-enqueued as a child. -/
def add_hooked_url (rec : Row) (t : Table) (url : String) (lt : Option String)
    (inl : Option Int) (pd : Option String) (replace : Bool) (parses : Bool) : Table :=
  if !parses then t
  else
    let t1 := if replace then SQLiteURLTable.remove_one t url else t
    URLItem.add_child_url rec t1 url inl lt pd

end HookEnvironment

namespace WebProcessor

/-- `WebProcessor.DOCUMENT_STATUS_CODES`. -/
def DOCUMENT_STATUS_CODES : List Int := [200, 206, 304]

/-- `WebProcessor.NO_DOCUMENT_STATUS_CODES`. -/
def NO_DOCUMENT_STATUS_CODES : List Int := [401, 403, 404, 405, 410]

end WebProcessor

/-- The `WebProcessor` options the session handlers read. -/
structure ProcessorOptions where
  retry_connrefused : Bool
  retry_dns_error : Bool
deriving DecidableEq, Repr

/-- What the session sees of an HTTP response: its status code and
whether the rich client's redirect tracker classifies it as a redirect
(the tracker itself lives in `http/web.py`, not in the source tree;
the spec fixes `3xx with a tracked redirect budget → redirect`). -/
structure HttpResponse where
  status_code : Int
  is_redirect : Bool
deriving DecidableEq, Repr

/-- Network/protocol errors reaching `_handle_error`.  Modelled from
the spec's error taxonomy (`errors.py` is not in the source tree); the
`isinstance` tests in the source discriminate exactly these cases. -/
inductive FetchError
  | connectionRefused
  | dnsNotFound
  | otherNetworkOrProtocol
deriving DecidableEq, Repr

/-- The state a `WebProcessorSession` touches: the URL item and its
frontier row snapshot, the table, the waiter, the writer session's
save/discard tallies and the statistics error tally.  The waiter and
statistics objects are not in the source tree; per the spec the waiter
exposes `reset`/`increment`, tracked here as a counter. -/
structure SessionState where
  item : Item
  record : Row
  table : Table
  waiter : Nat
  savedDocs : Nat
  discardedDocs : Nat
  serverErrors : Nat
  errorTally : Nat
deriving DecidableEq, Repr

namespace WebProcessorSession

/-- `WebProcessorSession._scrape_document` boiled down to its frontier
effect: the inline and linked URLs the demux scraper produced are
enqueued through the `URLItem` add methods. -/
def scrape_document (st : SessionState) (inlineUrls linkedUrls : List String) :
    SessionState :=
  let t2 := URLItem.add_inline_url_infos st.record st.table inlineUrls
  let t3 := URLItem.add_linked_url_infos st.record t2 linkedUrls
  { st with table := t3 }

/-- `WebProcessorSession._handle_document`: save the file, scrape it,
reset the waiter, count the statistics, mark the item done. -/
def handle_document (st : SessionState) (inlineUrls linkedUrls : List String) :
    Except PyErr (Bool × SessionState) :=
  let st1 := { st with savedDocs := st.savedDocs + 1 }
  let st2 := scrape_document st1 inlineUrls linkedUrls
  let st3 := { st2 with waiter := 0 }
  match URLItem.set_status st3.item st3.table Status.done with
  | .error e => .error e
  | .ok (it, t) => .ok (true, { st3 with item := it, table := t })

/-- `WebProcessorSession._handle_no_document`: reset the waiter,
discard the body, mark the item skipped. -/
def handle_no_document (st : SessionState) : Except PyErr (Bool × SessionState) :=
  let st1 := { st with waiter := 0, discardedDocs := st.discardedDocs + 1 }
  match URLItem.set_status st1.item st1.table Status.skipped with
  | .error e => .error e
  | .ok (it, t) => .ok (true, { st1 with item := it, table := t })

/-- `WebProcessorSession._handle_document_error`: increment the waiter,
discard the body, count a `ServerError`, mark the item error. -/
def handle_document_error (st : SessionState) : Except PyErr (Bool × SessionState) :=
  let st1 := { st with waiter := st.waiter + 1,
                       discardedDocs := st.discardedDocs + 1,
                       serverErrors := st.serverErrors + 1 }
  match URLItem.set_status st1.item st1.table Status.error with
  | .error e => .error e
  | .ok (it, t) => .ok (true, { st1 with item := it, table := t })

/-- `WebProcessorSession._handle_redirect`: reset the waiter and keep
the session going. -/
def handle_redirect (st : SessionState) : Bool × SessionState :=
  (false, { st with waiter := 0 })

/-- `WebProcessorSession._handle_response`: record the status code,
then dispatch on redirect / document / no-document / error. -/
def handle_response (resp : HttpResponse) (inlineUrls linkedUrls : List String)
    (st : SessionState) : Except PyErr (Bool × SessionState) :=
  let st0 := { st with
    table := URLItem.set_value st.item st.table [.status_code (some resp.status_code)] }
  if resp.is_redirect then .ok (handle_redirect st0)
  else if resp.status_code ∈ WebProcessor.DOCUMENT_STATUS_CODES then
    handle_document st0 inlineUrls linkedUrls
  else if resp.status_code ∈ WebProcessor.NO_DOCUMENT_STATUS_CODES then
    handle_no_document st0
  else
    handle_document_error st0

/-- `WebProcessorSession._handle_error`: tally the error, increment the
waiter, then classify: `ConnectionRefused` and `DNSNotFound` are
permanent (skipped) unless the matching retry option is set; everything
else is a transient error.  Always reports the session as done. -/
def handle_error (opts : ProcessorOptions) (err : FetchError) (st : SessionState) :
    Except PyErr (Bool × SessionState) :=
  let st1 := { st with errorTally := st.errorTally + 1, waiter := st.waiter + 1 }
  let target :=
    if err = .connectionRefused && !opts.retry_connrefused then Status.skipped
    else if err = .dnsNotFound && !opts.retry_dns_error then Status.skipped
    else Status.error
  match URLItem.set_status st1.item st1.table target with
  | .error e => .error e
  | .ok (it, t) => .ok (true, { st1 with item := it, table := t })

end WebProcessorSession

/-- What `SitemapReader.iter_links` sees of one object produced by the
external HTML/XML parser (its output contract is fixed by the spec):
an element with a tag and optional text, or a non-element such as a
processing instruction. -/
inductive XmlObj
  | element (tag : String) (text : Option String)
  | other
deriving DecidableEq, Repr

/-- A document body on the wire: either plain bytes or the same bytes
delivered gzip-compressed.  `is_gzip` in the source checks the gzip
magic bytes; the compressed byte stream itself is kept abstract. -/
inductive Wire
  | plain (raw : List Char)
  | gzipped (raw : List Char)
deriving DecidableEq, Repr

/-- The decompressed content: `gzip.GzipFile` transparently restores
the original bytes. -/
def Wire.content : Wire → List Char
  | .plain raw => raw
  | .gzipped raw => raw

/-- Python's `str.endswith`. -/
def endswith (s suffix : String) : Bool :=
  suffix.toList.isSuffixOf s.toList

/-- Substring search over byte lists (Python's `in` on bytes). -/
def containsSub (needle : List Char) : List Char → Bool
  | [] => needle.isEmpty
  | c :: rest => needle.isPrefixOf (c :: rest) || containsSub needle rest

/-- Modelled from the spec: the third-party robots.txt parser (not in
the source tree) collects the URL of every `Sitemap:` directive line
into its `sitemaps` list. -/
def robotsSitemaps (raw : List Char) : List String :=
  ((String.mk raw).splitOn "\n").filterMap fun line =>
    let s := line.trim
    if s.toLower.startsWith "sitemap:" then some ((s.drop 8).trim) else none

namespace SitemapReader

/-- `SitemapReader.MAX_ROBOTS_FILE_SIZE`. -/
def MAX_ROBOTS_FILE_SIZE : Nat := 4096

/-- The number of bytes `wpull.util.peek_file` sniffs (the helper is
not in the source tree; the spec fixes a first-4-KiB sniff). -/
def PEEK_SIZE : Nat := 4096

/-- `SitemapReader.is_file`: sniff the leading bytes for an XML
declaration together with a `<sitemapindex` or `<urlset` root tag. -/
def is_file (raw : List Char) : Bool :=
  let peeked := raw.take PEEK_SIZE
  containsSub "<?xml".toList peeked &&
    (containsSub "<sitemapindex".toList peeked || containsSub "<urlset".toList peeked)

/-- `SitemapReader.iter_links`: decompress gzip transparently; XML
sitemaps yield the non-empty text of every element whose tag ends in
`loc`; anything else is parsed as robots.txt, reading at most
`MAX_ROBOTS_FILE_SIZE` bytes and yielding the `Sitemap:` directives. -/
def iter_links (parseFn : List Char → List XmlObj) (w : Wire) : List String :=
  let raw := w.content
  if is_file raw then
    (parseFn raw).filterMap fun o =>
      match o with
      | .element tag (some s) => if endswith tag "loc" && !s.isEmpty then some s else none
      | _ => none
  else
    robotsSitemaps (raw.take MAX_ROBOTS_FILE_SIZE)

end SitemapReader

/-- The root element of a well-formed XML sitemap. -/
inductive SitemapRoot
  | urlset
  | sitemapindex
deriving DecidableEq, Repr

/-- A well-formed XML sitemap: its root kind and the `<loc>` texts. -/
structure SitemapDoc where
  root : SitemapRoot
  locs : List String
deriving DecidableEq, Repr

/-- Tag name of the sitemap root element. -/
def rootTag : SitemapRoot → String
  | .urlset => "urlset"
  | .sitemapindex => "sitemapindex"

/-- Tag name wrapping each `<loc>` entry. -/
def childTag : SitemapRoot → String
  | .urlset => "url"
  | .sitemapindex => "sitemap"

/-- The XML declaration opening a sitemap document. -/
def xmlDecl : List Char := "<?xml version=\"1.0\" encoding=\"UTF-8\"?>".toList

/-- Serialization of one sitemap entry. -/
def entryChars (root : SitemapRoot) (u : String) : List Char :=
  ("<" ++ childTag root ++ "><loc>" ++ u ++ "</loc></" ++ childTag root ++ ">").toList

/-- Byte serialization of a well-formed sitemap document. -/
def serializeDoc (d : SitemapDoc) : List Char :=
  xmlDecl ++ ("<" ++ rootTag d.root ++ ">").toList
    ++ (d.locs.map (entryChars d.root)).flatten
    ++ ("</" ++ rootTag d.root ++ ">").toList

/-- The external parser's fixed output contract on a serialized
sitemap: the XML declaration as a non-element, then the root element,
then for each entry its wrapper element and the `loc` element carrying
the URL text. -/
def docObjs (d : SitemapDoc) : List XmlObj :=
  .other :: XmlObj.element (rootTag d.root) none ::
    (d.locs.map fun u =>
      [XmlObj.element (childTag d.root) none, XmlObj.element "loc" (some u)]).flatten

/-! Helper lemmas about rows and field updates. -/

/-- The row after all `kwargs` of a Python dict are applied in order. -/
def applyKwargs (r : Row) (kwargs : List FieldVal) : Row :=
  kwargs.foldl Row.setField r

/-- The inner `for key, value in kwargs.items()` loop of an update. -/
def updateAll (t : Table) (url : String) (kwargs : List FieldVal) : Table :=
  kwargs.foldl (fun acc fv => SQLiteURLTable.updateField acc url fv) t

/-- The outer `for url in urls` update loop of `add`. -/
def updPhase (t : Table) (urls : List String) (kwargs : List FieldVal) : Table :=
  urls.foldl (fun acc u => updateAll acc u kwargs) t

/-- The insert loop of `add`. -/
def insPhase (t : Table) (urls : List String) : Table :=
  urls.foldl SQLiteURLTable.insertOrIgnore t

/-- The `(url, status)` projection of a table. -/
def urlStatus (t : Table) : List (String × String) :=
  t.map fun r => (r.url, r.status)

/-- The number of rows holding a given URL. -/
def urlCount (t : Table) (u : String) : Nat :=
  t.countP fun r => r.url = u

/-- A sample pre-existing row in a terminal status. -/
def sampleRowDone : Row :=
  { Row.initial "a" with status := Status.done, try_count := 2 }

/-- Concrete table for the C2 witness. -/
def c2Table : Table := [sampleRowDone]

/-- Concrete field set for the C2 witness. -/
def c2F : List FieldVal := [.level 3, .referrer (some "r")]

/-- Concrete table for the C3 witness: one todo row. -/
def c3Table : Table := [Row.initial "a"]

/-- The row `URLItem.add_inline_url_infos` produces for a fresh child. -/
def c4Row : Row :=
  { url := "b", status := Status.todo, try_count := 0, level := 1,
    top_url := some "a", status_code := none, referrer := some "a",
    inline := some 1, link_type := none, url_encoding := none,
    request := none }

/-- One `set_status` call as the engine performs it: an
`AssertionError` aborts before any table update. -/
def runSetStatus (st : Item × Table) (c : String × Bool) : Item × Table :=
  match URLItem.set_status st.1 st.2 c.1 c.2 with
  | .ok st2 => st2
  | .error _ => st

/-- A sequence of `set_status` calls over one item's lifetime. -/
def runCalls (st : Item × Table) (calls : List (String × Bool)) : Item × Table :=
  calls.foldl runSetStatus st

/-- The invariant tying a lifetime state back to the initial table:
the item URL is stable, the table keeps its shape row by row, a
still-unset increment flag means no try_count changed, and try_count
never grows by more than one. -/
def LifetimeInv (it : Item) (t : Table) (st : Item × Table) : Prop :=
  st.1.url = it.url ∧ st.2.length = t.length ∧
    ∀ i (h2 : i < st.2.length) (h1 : i < t.length),
      st.2[i].url = t[i].url ∧
      (st.1.try_count_incremented = false → st.2[i].try_count = t[i].try_count) ∧
      st.2[i].try_count ≤ t[i].try_count + 1


/-- A sample session state over a one-row table. -/
def sampleState : SessionState :=
  { item := ⟨"a", false, false⟩, record := Row.initial "a",
    table := [Row.initial "a"], waiter := 5, savedDocs := 0,
    discardedDocs := 0, serverErrors := 0, errorTally := 0 }


/-- The link filter `iter_links` applies to each parsed object. -/
def locFilter : XmlObj → Option String := fun o =>
  match o with
  | .element tag (some s) => if endswith tag "loc" && !s.isEmpty then some s else none
  | _ => none

def c9Doc : SitemapDoc := ⟨.urlset, ["http://x/"]⟩

def robotsBody : List Char := "User-agent: *\nSitemap: http://x/s.xml".toList

theorem Row.setField_url (r : Row) (fv : FieldVal) : (r.setField fv).url = r.url := by
  cases fv <;> rfl

theorem Row.agrees_setField_self (r : Row) (fv : FieldVal) :
    (r.setField fv).agrees fv = true := by
  cases fv <;> simp [Row.setField, Row.agrees]

theorem Row.agrees_setField_of_ne (r : Row) (fv fv2 : FieldVal)
    (h : fv.field ≠ fv2.field) : (r.setField fv2).agrees fv = r.agrees fv := by
  cases fv <;> cases fv2 <;> first
    | rfl
    | exact absurd rfl h

theorem Row.status_setField_of_ne (r : Row) (fv : FieldVal)
    (h : fv.field ≠ Field.status) : (r.setField fv).status = r.status := by
  cases fv <;> first
    | rfl
    | exact absurd rfl h

theorem applyKwargs_nil (r : Row) : applyKwargs r [] = r := rfl

theorem applyKwargs_cons (r : Row) (k : FieldVal) (ks : List FieldVal) :
    applyKwargs r (k :: ks) = applyKwargs (r.setField k) ks := rfl

theorem applyKwargs_url : ∀ (ks : List FieldVal) (r : Row),
    (applyKwargs r ks).url = r.url := by
  intro ks
  induction ks with
  | nil => intro r; rfl
  | cons k ks ih =>
    intro r
    rw [applyKwargs_cons, ih, Row.setField_url]

theorem applyKwargs_agrees_of_ne_all (fv : FieldVal) :
    ∀ (ks : List FieldVal) (r : Row), (∀ k ∈ ks, fv.field ≠ k.field) →
    (applyKwargs r ks).agrees fv = r.agrees fv := by
  intro ks
  induction ks with
  | nil => intro r _; rfl
  | cons k ks ih =>
    intro r h
    rw [applyKwargs_cons, ih _ fun k2 hk2 => h k2 (List.mem_cons_of_mem _ hk2),
      Row.agrees_setField_of_ne _ _ _ (h k (List.mem_cons_self _ _))]

theorem applyKwargs_agrees : ∀ (ks : List FieldVal),
    (ks.map FieldVal.field).Nodup → ∀ fv ∈ ks, ∀ r : Row,
    (applyKwargs r ks).agrees fv = true := by
  intro ks
  induction ks with
  | nil => intro _ fv hfv; exact absurd hfv (List.not_mem_nil fv)
  | cons k ks ih =>
    intro hnd fv hfv r
    rw [List.map_cons, List.nodup_cons] at hnd
    rcases List.mem_cons.mp hfv with hfv | hfv
    · subst hfv
      rw [applyKwargs_cons]
      rw [applyKwargs_agrees_of_ne_all fv ks (r.setField fv) ?hne]
      · exact Row.agrees_setField_self r fv
      case hne =>
        intro k2 hk2 heq
        exact hnd.1 (heq ▸ List.mem_map_of_mem FieldVal.field hk2)
    · exact ih hnd.2 fv hfv (r.setField k)

theorem applyKwargs_status : ∀ (ks : List FieldVal),
    Field.status ∉ ks.map FieldVal.field → ∀ r : Row,
    (applyKwargs r ks).status = r.status := by
  intro ks
  induction ks with
  | nil => intro _ r; rfl
  | cons k ks ih =>
    intro h r
    rw [List.map_cons] at h
    rw [applyKwargs_cons, ih (fun hc => h (List.mem_cons_of_mem _ hc)) (r.setField k),
      Row.status_setField_of_ne r k (fun hc => h (hc ▸ List.mem_cons_self _ _))]

/-! Helper lemmas about the kwargs-update loops of `SQLiteURLTable.add`
and `SQLiteURLTable.update`. -/

theorem add_eq_phases (t : Table) (urls : List String) (kwargs : List FieldVal) :
    SQLiteURLTable.add t urls kwargs = updPhase (insPhase t urls) urls kwargs := rfl

theorem update_eq_updateAll (t : Table) (url : String) (inc : Bool)
    (kwargs : List FieldVal) :
    SQLiteURLTable.update t url inc kwargs =
      updateAll (if inc then SQLiteURLTable.incrementTry t url else t) url kwargs := rfl

theorem updateAll_eq_map (url : String) : ∀ (kwargs : List FieldVal) (t : Table),
    updateAll t url kwargs =
      t.map fun r => if r.url = url then applyKwargs r kwargs else r := by
  intro kwargs
  induction kwargs with
  | nil =>
    intro t
    show t = _
    rw [List.map_congr_left fun r _ => ?_, List.map_id]
    by_cases hr : r.url = url <;> simp [hr, applyKwargs_nil]
  | cons k ks ih =>
    intro t
    have h1 : updateAll t url (k :: ks) = updateAll (SQLiteURLTable.updateField t url k) url ks := rfl
    rw [h1, ih]
    simp only [SQLiteURLTable.updateField, List.map_map]
    refine List.map_congr_left fun r _ => ?_
    by_cases hr : r.url = url
    · simp [Function.comp, hr, Row.setField_url, applyKwargs_cons]
    · simp [Function.comp, hr]

theorem url_map_updateAll (url : String) (kwargs : List FieldVal) (t : Table) :
    (updateAll t url kwargs).map Row.url = t.map Row.url := by
  rw [updateAll_eq_map, List.map_map]
  refine List.map_congr_left fun r _ => ?_
  by_cases hr : r.url = url <;> simp [Function.comp, hr, applyKwargs_url]

theorem url_map_updPhase (kwargs : List FieldVal) : ∀ (urls : List String) (t : Table),
    (updPhase t urls kwargs).map Row.url = t.map Row.url := by
  intro urls
  induction urls with
  | nil => intro t; rfl
  | cons u us ih =>
    intro t
    have h1 : updPhase t (u :: us) kwargs = updPhase (updateAll t u kwargs) us kwargs := rfl
    rw [h1, ih, url_map_updateAll]

theorem urlStatus_updateAll (url : String) (kwargs : List FieldVal)
    (h : Field.status ∉ kwargs.map FieldVal.field) (t : Table) :
    urlStatus (updateAll t url kwargs) = urlStatus t := by
  rw [updateAll_eq_map]
  unfold urlStatus
  rw [List.map_map]
  refine List.map_congr_left fun r _ => ?_
  by_cases hr : r.url = url <;>
    simp [Function.comp, hr, applyKwargs_url, applyKwargs_status _ h]

theorem urlStatus_updPhase (kwargs : List FieldVal)
    (h : Field.status ∉ kwargs.map FieldVal.field) :
    ∀ (urls : List String) (t : Table),
    urlStatus (updPhase t urls kwargs) = urlStatus t := by
  intro urls
  induction urls with
  | nil => intro t; rfl
  | cons u us ih =>
    intro t
    have h1 : updPhase t (u :: us) kwargs = updPhase (updateAll t u kwargs) us kwargs := rfl
    rw [h1, ih, urlStatus_updateAll u kwargs h]

/-- Core characterization of the update phase of `add`: a row whose URL
is among the supplied ones ends up agreeing with every provided
attribute, and a row whose URL is not supplied is an untouched row of
the input table. -/
theorem updPhase_spec (kwargs : List FieldVal)
    (hk : (kwargs.map FieldVal.field).Nodup) :
    ∀ (urls : List String) (t : Table), ∀ r' ∈ updPhase t urls kwargs,
    (r'.url ∈ urls → ∀ fv ∈ kwargs, r'.agrees fv = true) ∧
      (r'.url ∉ urls → r' ∈ t) := by
  intro urls
  induction urls with
  | nil =>
    intro t r' hr'
    exact ⟨fun h => absurd h (List.not_mem_nil _), fun _ => hr'⟩
  | cons u us ih =>
    intro t r' hr'
    have h1 : updPhase t (u :: us) kwargs = updPhase (updateAll t u kwargs) us kwargs := rfl
    rw [h1] at hr'
    obtain ⟨ih1, ih2⟩ := ih (updateAll t u kwargs) r' hr'
    constructor
    · intro hmem fv hfv
      by_cases hus : r'.url ∈ us
      · exact ih1 hus fv hfv
      · have hrt : r' ∈ updateAll t u kwargs := ih2 hus
        have hu : r'.url = u := by
          rcases List.mem_cons.mp hmem with h | h
          · exact h
          · exact absurd h hus
        rw [updateAll_eq_map] at hrt
        obtain ⟨r0, _, hr0⟩ := List.mem_map.mp hrt
        by_cases h0 : r0.url = u
        · rw [if_pos h0] at hr0
          rw [← hr0]
          exact applyKwargs_agrees kwargs hk fv hfv r0
        · rw [if_neg h0] at hr0
          exact absurd (hr0 ▸ hu) h0
    · intro hnot
      have hnu : r'.url ≠ u := fun h => hnot (h ▸ List.mem_cons_self _ _)
      have hnus : r'.url ∉ us := fun h => hnot (List.mem_cons_of_mem _ h)
      have hrt : r' ∈ updateAll t u kwargs := ih2 hnus
      rw [updateAll_eq_map] at hrt
      obtain ⟨r0, hr0t, hr0⟩ := List.mem_map.mp hrt
      by_cases h0 : r0.url = u
      · rw [if_pos h0] at hr0
        have : r'.url = u := by rw [← hr0, applyKwargs_url, h0]
        exact absurd this hnu
      · rw [if_neg h0] at hr0
        exact hr0 ▸ hr0t

/-! Insert-phase lemmas. -/

theorem insertOrIgnore_of_mem {t : Table} {u : String} (h : u ∈ t.map Row.url) :
    SQLiteURLTable.insertOrIgnore t u = t := by
  obtain ⟨r, hrt, hru⟩ := List.mem_map.mp h
  unfold SQLiteURLTable.insertOrIgnore
  rw [if_pos]
  exact List.any_eq_true.mpr ⟨r, hrt, by simp [hru]⟩

theorem insertOrIgnore_of_not_mem {t : Table} {u : String} (h : u ∉ t.map Row.url) :
    SQLiteURLTable.insertOrIgnore t u = t ++ [Row.initial u] := by
  unfold SQLiteURLTable.insertOrIgnore
  rw [if_neg]
  intro hany
  obtain ⟨r, hrt, hru⟩ := List.any_eq_true.mp hany
  exact h (List.mem_map.mpr ⟨r, hrt, by simpa using hru⟩)

theorem urlCount_eq_count (t : Table) (u : String) :
    urlCount t u = (t.map Row.url).count u := by
  induction t with
  | nil => rfl
  | cons r t ih =>
    by_cases hr : r.url = u <;>
      simp [urlCount, List.countP_cons, List.count_cons, hr, beq_iff_eq] at * <;>
      omega

/-! Claim theorems. -/

/-- C2: For every URL u and field set F, calling the frontier's
`add([u], F)` twice leaves the table with exactly one row for u; a
pre-existing row keeps its status (in particular, a row already in
status done is not reverted to todo), while the supplied non-status
attributes are updated on all supplied URLs, including pre-existing
ones. -/
theorem add_idempotent_enqueue
    (u : String) (F : List FieldVal) (t : Table)
    (hnd : (t.map Row.url).Nodup)
    (hkeys : (F.map FieldVal.field).Nodup)
    (hstat : Field.status ∉ F.map FieldVal.field) :
    urlCount (SQLiteURLTable.add (SQLiteURLTable.add t [u] F) [u] F) u = 1 ∧
    (∀ r ∈ t, r.url = u →
      ∀ r2 ∈ SQLiteURLTable.add (SQLiteURLTable.add t [u] F) [u] F, r2.url = u →
        r2.status = r.status) ∧
    (∀ r2 ∈ SQLiteURLTable.add (SQLiteURLTable.add t [u] F) [u] F, r2.url = u →
      ∀ fv ∈ F, r2.agrees fv = true) := by
  have hadd : ∀ s : Table,
      SQLiteURLTable.add s [u] F = updPhase (SQLiteURLTable.insertOrIgnore s u) [u] F :=
    fun s => rfl
  set t1 := SQLiteURLTable.add t [u] F with ht1
  set t2 := SQLiteURLTable.add t1 [u] F with ht2
  have hmem1 : u ∈ t1.map Row.url := by
    rw [ht1, hadd t]
    by_cases hm : u ∈ t.map Row.url
    · rw [url_map_updPhase, insertOrIgnore_of_mem hm]
      exact hm
    · rw [url_map_updPhase, insertOrIgnore_of_not_mem hm, List.map_append]
      simp [Row.initial]
  have hins1 : SQLiteURLTable.insertOrIgnore t1 u = t1 := insertOrIgnore_of_mem hmem1
  have ht2' : t2 = updPhase t1 [u] F := by rw [ht2, hadd t1, hins1]
  have hmap2 : t2.map Row.url = t1.map Row.url := by rw [ht2', url_map_updPhase]
  refine ⟨?_, ?_, ?_⟩
  · rw [urlCount_eq_count, hmap2, ht1, hadd t, url_map_updPhase]
    by_cases hm : u ∈ t.map Row.url
    · rw [insertOrIgnore_of_mem hm]
      exact List.count_eq_one_of_mem hnd hm
    · rw [insertOrIgnore_of_not_mem hm, List.map_append, List.count_append]
      simp [Row.initial, List.count_eq_zero.mpr hm]
  · intro r hrt hru r2 hr2 hr2u
    have hm : u ∈ t.map Row.url := List.mem_map.mpr ⟨r, hrt, hru⟩
    have hus2 : urlStatus t2 = urlStatus t := by
      rw [ht2', urlStatus_updPhase F hstat, ht1, hadd t, urlStatus_updPhase F hstat,
        insertOrIgnore_of_mem hm]
    have hpair : (r2.url, r2.status) ∈ urlStatus t := by
      rw [← hus2]
      exact List.mem_map.mpr ⟨r2, hr2, rfl⟩
    obtain ⟨r3, hr3t, hr3⟩ := List.mem_map.mp hpair
    have hr3u : r3.url = u := by
      have := congrArg Prod.fst hr3
      simpa [hr2u] using this
    have hr3r : r3 = r := List.inj_on_of_nodup_map hnd hr3t hrt (by rw [hr3u, hru])
    have := congrArg Prod.snd hr3
    simp only at this
    rw [← this, hr3r]
  · intro r2 hr2 hr2u fv hfv
    rw [ht2'] at hr2
    exact (updPhase_spec F hkeys [u] t1 r2 hr2).1
      (hr2u ▸ List.mem_cons_self _ _) fv hfv

/-- Witness for C2: adding `a` twice over a table that already holds
`a` in status done leaves exactly one row for `a`. -/
theorem add_idempotent_enqueue_witness :
    (c2Table.map Row.url).Nodup ∧
    (c2F.map FieldVal.field).Nodup ∧
    Field.status ∉ c2F.map FieldVal.field ∧
    urlCount (SQLiteURLTable.add (SQLiteURLTable.add c2Table ["a"] c2F) ["a"] c2F) "a" = 1 :=
  ⟨by decide, by decide, by decide,
    (add_idempotent_enqueue "a" c2F c2Table (by decide) (by decide) (by decide)).1⟩

/-- In the table produced by `UPDATE urls SET status = ? WHERE url = ?`,
looking the URL up again finds exactly the updated row (URLs are unique
in a valid table). -/
theorem find?_map_setStatus (ns : String) : ∀ (t : Table), (t.map Row.url).Nodup →
    ∀ r ∈ t,
    (t.map fun x => if x.url = r.url then { x with status := ns } else x).find?
      (fun x => x.url = r.url) = some { r with status := ns } := by
  intro t
  induction t with
  | nil => intro _ r hr; exact absurd hr (List.not_mem_nil r)
  | cons a t ih =>
    intro hnd r hr
    rw [List.map_cons, List.nodup_cons] at hnd
    by_cases ha : a.url = r.url
    · have har : a = r := by
        rcases List.mem_cons.mp hr with h | h
        · exact h.symm
        · exact absurd (List.mem_map.mpr ⟨r, h, ha.symm⟩) hnd.1
      subst har
      simp [List.find?_cons, ha]
    · have hrt : r ∈ t := by
        rcases List.mem_cons.mp hr with h | h
        · exact absurd (show a.url = r.url by rw [h]) ha
        · exact h
      rw [List.map_cons, if_neg ha, List.find?_cons_of_neg _ (by simp [ha])]
      exact ih hnd.2 r hrt

/-- C3: `get_and_update(status, new_status, level)` raises `NotFound`
iff no row has the given status (and, when level is given, a level
strictly below it); otherwise it transitions one such row to
`new_status` and returns that row carrying the new status with all
other fields unchanged. -/
theorem get_and_update_spec
    (t : Table) (s ns : String) (lvl : Option Int)
    (hnd : (t.map Row.url).Nodup)
    (hns : ns.isEmpty = false) :
    (SQLiteURLTable.get_and_update t s (some ns) lvl = .error .notFound ↔
      ¬ ∃ r ∈ t, SQLiteURLTable.rowMatches s lvl r = true) ∧
    (∀ e, SQLiteURLTable.get_and_update t s (some ns) lvl = .error e → e = .notFound) ∧
    (∀ row t2, SQLiteURLTable.get_and_update t s (some ns) lvl = .ok (row, t2) →
      ∃ r ∈ t, SQLiteURLTable.rowMatches s lvl r = true ∧
        row = { r with status := ns } ∧
        t2 = t.map fun x => if x.url = r.url then { x with status := ns } else x) := by
  cases hfind : t.find? (SQLiteURLTable.rowMatches s lvl) with
  | none =>
    have hres : SQLiteURLTable.get_and_update t s (some ns) lvl = .error .notFound := by
      unfold SQLiteURLTable.get_and_update
      rw [hfind]
    have hno : ¬ ∃ r ∈ t, SQLiteURLTable.rowMatches s lvl r = true := by
      intro ⟨r, hrt, hp⟩
      exact absurd hp (List.find?_eq_none.mp hfind r hrt)
    refine ⟨by simp [hres, hno], ?_, ?_⟩
    · intro e he
      rw [hres] at he
      exact (Except.error.injEq _ _ ▸ he).symm
    · intro row t2 hok
      rw [hres] at hok
      exact absurd hok (by simp)
  | some r =>
    have hrt : r ∈ t := List.mem_of_find?_eq_some hfind
    have hp : SQLiteURLTable.rowMatches s lvl r = true := List.find?_some hfind
    have hfind2 := find?_map_setStatus ns t hnd r hrt
    have hres : SQLiteURLTable.get_and_update t s (some ns) lvl =
        .ok ({ r with status := ns },
          t.map fun x => if x.url = r.url then { x with status := ns } else x) := by
      unfold SQLiteURLTable.get_and_update
      rw [hfind]
      simp only [hns, Bool.false_eq_true, if_false]
      unfold SQLiteURLTable.getitem
      have : SQLiteURLTable.updateField t r.url (.status ns) =
          t.map fun x => if x.url = r.url then { x with status := ns } else x := rfl
      rw [this, hfind2]
    refine ⟨?_, ?_, ?_⟩
    · rw [hres]
      constructor
      · intro h
        exact absurd h (by simp)
      · intro h
        exact absurd ⟨r, hrt, hp⟩ h
    · intro e he
      rw [hres] at he
      exact absurd he (by simp)
    · intro row t2 hok
      rw [hres] at hok
      obtain ⟨h1, h2⟩ := Prod.mk.injEq _ _ _ _ ▸ Except.ok.injEq _ _ ▸ hok
      exact ⟨r, hrt, hp, h1.symm, h2.symm⟩

/-- Witness for C3: on a table holding one todo row, dispatching
todo → in_progress does not raise `NotFound`. -/
theorem get_and_update_spec_witness :
    ((c3Table.map Row.url).Nodup ∧ Status.in_progress.isEmpty = false) ∧
    (SQLiteURLTable.get_and_update c3Table Status.todo (some Status.in_progress) none =
        .error .notFound ↔
      ¬ ∃ r ∈ c3Table, SQLiteURLTable.rowMatches Status.todo none r = true) :=
  ⟨⟨by decide, by decide⟩,
    (get_and_update_spec c3Table Status.todo Status.in_progress none
      (by decide) (by decide)).1⟩

/-- C10: for a URL absent from the table, `__getitem__` raises
`IndexError` rather than `KeyError`, so the inherited Mapping
membership test propagates `IndexError` instead of returning False. -/
theorem getitem_absent_indexerror (t : Table) (url : String)
    (h : url ∉ t.map Row.url) :
    SQLiteURLTable.getitem t url = .error .indexError ∧
    SQLiteURLTable.containsUrl t url = .error .indexError := by
  have hfind : t.find? (fun r => r.url = url) = none := by
    refine List.find?_eq_none.mpr fun r hr => ?_
    simp only [decide_eq_true_eq]
    intro hc
    exact h (List.mem_map.mpr ⟨r, hr, hc⟩)
  have h1 : SQLiteURLTable.getitem t url = .error .indexError := by
    unfold SQLiteURLTable.getitem
    rw [hfind]
  refine ⟨h1, ?_⟩
  unfold SQLiteURLTable.containsUrl
  rw [h1]

/-- Witness for C10 at a table holding only `a`, probed with `b`. -/
theorem getitem_absent_indexerror_witness :
    "b" ∉ c3Table.map Row.url ∧
    SQLiteURLTable.getitem c3Table "b" = .error .indexError ∧
    SQLiteURLTable.containsUrl c3Table "b" = .error .indexError :=
  ⟨by decide, getitem_absent_indexerror c3Table "b" (by decide)⟩

/-- C4: every child URL enqueued from a parent item, inline or linked,
is added with level = parent level + 1, referrer = parent URL, and
top_url inherited from the parent (the parent's own URL when the
parent has no top_url). -/
theorem child_url_inheritance (rec : Row) (t : Table) (urls : List String) :
    (∀ r ∈ URLItem.add_inline_url_infos rec t urls, r.url ∈ urls →
      r.level = rec.level + 1 ∧ r.referrer = some rec.url ∧
      (rec.top_url = none → r.top_url = some rec.url) ∧
      (∀ s, rec.top_url = some s → s.isEmpty = false → r.top_url = some s)) ∧
    (∀ r ∈ URLItem.add_linked_url_infos rec t urls, r.url ∈ urls →
      r.level = rec.level + 1 ∧ r.referrer = some rec.url ∧
      (rec.top_url = none → r.top_url = some rec.url) ∧
      (∀ s, rec.top_url = some s → s.isEmpty = false → r.top_url = some s)) := by
  have key : ∀ (F : List FieldVal), (F.map FieldVal.field).Nodup →
      FieldVal.level (rec.level + 1) ∈ F →
      FieldVal.referrer (some rec.url) ∈ F →
      FieldVal.top_url (some (pyOr rec.top_url rec.url)) ∈ F →
      ∀ r ∈ SQLiteURLTable.add t urls F, r.url ∈ urls →
        r.level = rec.level + 1 ∧ r.referrer = some rec.url ∧
        (rec.top_url = none → r.top_url = some rec.url) ∧
        (∀ s, rec.top_url = some s → s.isEmpty = false → r.top_url = some s) := by
    intro F hk hl hrf htu r hr hu
    rw [add_eq_phases] at hr
    have hag := (updPhase_spec F hk urls (insPhase t urls) r hr).1 hu
    have h1 := hag _ hl
    have h2 := hag _ hrf
    have h3 := hag _ htu
    simp only [Row.agrees, decide_eq_true_eq] at h1 h2 h3
    refine ⟨h1, h2, ?_, ?_⟩
    · intro hn
      rw [h3, hn]
      rfl
    · intro s hs hse
      rw [h3, hs]
      simp [pyOr, hse]
  constructor
  · refine key _ ?_ (by simp) (by simp) (by simp)
    show ([Field.inline, Field.level, Field.referrer, Field.top_url] : List Field).Nodup
    decide
  · refine key _ ?_ (by simp) (by simp) (by simp)
    show ([Field.level, Field.referrer, Field.top_url] : List Field).Nodup
    decide

/-- Witness for C4 on a concrete parent and child. -/
theorem child_url_inheritance_witness :
    c4Row ∈ URLItem.add_inline_url_infos sampleRowDone [] ["b"] ∧
    c4Row.url ∈ ["b"] ∧
    c4Row.level = sampleRowDone.level + 1 ∧
    c4Row.referrer = some sampleRowDone.url :=
  ⟨by decide, by decide,
    ((child_url_inheritance sampleRowDone [] ["b"]).1 c4Row (by decide) (by decide)).1,
    ((child_url_inheritance sampleRowDone [] ["b"]).1 c4Row (by decide) (by decide)).2.1⟩

theorem lifetimeInv_init (it : Item) (t : Table) : LifetimeInv it t (it, t) := by
  refine ⟨rfl, rfl, fun i h2 h1 => ⟨rfl, fun _ => rfl, ?_⟩⟩
  show t[i].try_count ≤ t[i].try_count + 1
  omega

theorem lifetimeInv_step (it : Item) (t : Table) (st : Item × Table)
    (c : String × Bool) (hinv : LifetimeInv it t st) :
    LifetimeInv it t (runSetStatus st c) := by
  obtain ⟨hurl, hlen, hrow⟩ := hinv
  cases hflag : st.1.try_count_incremented with
  | true =>
    have heq : runSetStatus st c = st := by
      unfold runSetStatus URLItem.set_status
      rw [hflag]
      rfl
    rw [heq]
    exact ⟨hurl, hlen, hrow⟩
  | false =>
    cases hc : c.2 with
    | false =>
      have hres : runSetStatus st c =
          (⟨st.1.url, false, true⟩,
            st.2.map fun r =>
              if r.url = st.1.url then { r with status := c.1 } else r) := by
        simp only [runSetStatus, URLItem.set_status, hflag, hc, Bool.false_eq_true,
          if_false, SQLiteURLTable.update, SQLiteURLTable.updateField,
          List.foldl_cons, List.foldl_nil, Row.setField]
      rw [hres]
      refine ⟨hurl, by simpa using hlen, ?_⟩
      intro i h2 h1
      have h2' : i < st.2.length := by simpa using h2
      obtain ⟨hu, he, hb⟩ := hrow i h2' h1
      have heq := he hflag
      refine ⟨?_, fun _ => ?_, ?_⟩ <;>
        dsimp only <;>
        rw [List.getElem_map] <;>
        by_cases hm : st.2[i].url = st.1.url <;>
        simp only [if_pos, if_neg, hm, ite_true, ite_false] <;>
        first
          | exact hu
          | exact heq
          | omega
          | (rw [← hm]; exact hu)
    | true =>
      have hres : runSetStatus st c =
          (⟨st.1.url, true, true⟩,
            (SQLiteURLTable.incrementTry st.2 st.1.url).map fun r =>
              if r.url = st.1.url then { r with status := c.1 } else r) := by
        simp only [runSetStatus, URLItem.set_status, hflag, hc, Bool.false_eq_true,
          if_false, if_true, SQLiteURLTable.update, SQLiteURLTable.updateField,
          List.foldl_cons, List.foldl_nil, Row.setField]
      rw [hres]
      refine ⟨hurl, by simpa [SQLiteURLTable.incrementTry] using hlen, ?_⟩
      intro i h2 h1
      have h2' : i < st.2.length := by
        simpa [SQLiteURLTable.incrementTry] using h2
      obtain ⟨hu, he, hb⟩ := hrow i h2' h1
      have heq := he hflag
      refine ⟨?_, fun hcon => absurd hcon (by simp), ?_⟩ <;>
        dsimp only <;>
        simp only [SQLiteURLTable.incrementTry] <;>
        rw [List.getElem_map, List.getElem_map] <;>
        by_cases hm : st.2[i].url = st.1.url <;>
        simp only [if_pos, if_neg, hm, ite_true, ite_false] <;>
        first
          | exact hu
          | (rw [heq]; omega)
          | omega
          | (rw [← hm]; exact hu)


theorem lifetimeInv_runCalls (it : Item) (t : Table) :
    ∀ (calls : List (String × Bool)) (st : Item × Table),
    LifetimeInv it t st → LifetimeInv it t (runCalls st calls) := by
  intro calls
  induction calls with
  | nil => intro st h; exact h
  | cons c cs ih =>
    intro st h
    exact ih (runSetStatus st c) (lifetimeInv_step it t st c h)

/-- C7: `URLItem.set_status` is idempotent: a second call with the same
status leaves the same table as one call, and across any sequence of
`set_status` calls in an item's lifetime a row's try_count grows by at
most one. -/
theorem set_status_idempotent
    (it : Item) (t : Table) (s : String) (b : Bool)
    (calls : List (String × Bool))
    (hfresh : it.try_count_incremented = false) :
    (runSetStatus (runSetStatus (it, t) (s, b)) (s, b)).2 =
      (runSetStatus (it, t) (s, b)).2 ∧
    ∀ i (h2 : i < (runCalls (it, t) calls).2.length) (h1 : i < t.length),
      (runCalls (it, t) calls).2[i].try_count ≤ t[i].try_count + 1 := by
  constructor
  · cases hb : b with
    | false =>
      have hres1 : runSetStatus (it, t) (s, false) =
          (⟨it.url, false, true⟩,
            t.map fun r => if r.url = it.url then { r with status := s } else r) := by
        simp only [runSetStatus, URLItem.set_status, hfresh, Bool.false_eq_true,
          if_false, SQLiteURLTable.update, SQLiteURLTable.updateField,
          List.foldl_cons, List.foldl_nil, Row.setField]
      have hres2 : ∀ T : Table, runSetStatus ((⟨it.url, false, true⟩ : Item), T) (s, false) =
          (⟨it.url, false, true⟩,
            T.map fun r => if r.url = it.url then { r with status := s } else r) := by
        intro T
        simp only [runSetStatus, URLItem.set_status, Bool.false_eq_true, if_false,
          SQLiteURLTable.update, SQLiteURLTable.updateField,
          List.foldl_cons, List.foldl_nil, Row.setField]
      rw [hres1, hres2, List.map_map]
      show List.map _ t = List.map _ t
      refine List.map_congr_left fun r _ => ?_
      by_cases hr : r.url = it.url <;> simp [Function.comp, hr]
    | true =>
      have hres1 : runSetStatus (it, t) (s, true) =
          (⟨it.url, true, true⟩,
            (SQLiteURLTable.incrementTry t it.url).map fun r =>
              if r.url = it.url then { r with status := s } else r) := by
        simp only [runSetStatus, URLItem.set_status, hfresh, Bool.false_eq_true,
          if_false, if_true, SQLiteURLTable.update, SQLiteURLTable.updateField,
          List.foldl_cons, List.foldl_nil, Row.setField]
      rw [hres1]
      rfl
  · intro i h2 h1
    exact ((lifetimeInv_runCalls it t calls (it, t) (lifetimeInv_init it t)).2.2
      i h2 h1).2.2

/-- Witness for C7: a concrete double `set_status(done)` call. -/
theorem set_status_idempotent_witness :
    (⟨"a", false, false⟩ : Item).try_count_incremented = false ∧
    (runSetStatus (runSetStatus ((⟨"a", false, false⟩ : Item), [Row.initial "a"])
        (Status.done, true)) (Status.done, true)).2 =
      (runSetStatus ((⟨"a", false, false⟩ : Item), [Row.initial "a"])
        (Status.done, true)).2 :=
  ⟨rfl, (set_status_idempotent ⟨"a", false, false⟩ [Row.initial "a"]
    Status.done true [] rfl).1⟩

/-- Positive exit codes fold to the running minimum. -/
theorem foldl_update_exit_code_pos :
    ∀ (cs : List Nat) (cur : Nat), 0 < cur → (∀ x ∈ cs, 0 < x) →
    (cs.foldl Engine.update_exit_code cur = cur ∨
      cs.foldl Engine.update_exit_code cur ∈ cs) ∧
    cs.foldl Engine.update_exit_code cur ≤ cur ∧
    ∀ x ∈ cs, cs.foldl Engine.update_exit_code cur ≤ x := by
  intro cs
  induction cs with
  | nil =>
    intro cur _ _
    exact ⟨Or.inl rfl, Nat.le_refl _, fun x hx => absurd hx (List.not_mem_nil x)⟩
  | cons a as ih =>
    intro cur hcur hall
    have ha : 0 < a := hall a (List.mem_cons_self _ _)
    have hupd : Engine.update_exit_code cur a = min cur a := by
      unfold Engine.update_exit_code
      rw [if_pos (by omega), if_pos (by omega)]
    have hfold : (a :: as).foldl Engine.update_exit_code cur =
        as.foldl Engine.update_exit_code (min cur a) := by
      rw [List.foldl_cons, hupd]
    obtain ⟨hmem, hle, hbnd⟩ := ih (min cur a) (by omega)
      (fun x hx => hall x (List.mem_cons_of_mem _ hx))
    refine ⟨?_, ?_, ?_⟩
    · rw [hfold]
      rcases hmem with h | h
      · rcases min_choice cur a with hm | hm
        · exact Or.inl (h.trans hm)
        · exact Or.inr (List.mem_cons.mpr (Or.inl (h.trans hm)))
      · exact Or.inr (List.mem_cons_of_mem _ h)
    · rw [hfold]
      exact hle.trans (Nat.min_le_left _ _)
    · intro x hx
      rw [hfold]
      rcases List.mem_cons.mp hx with h | h
      · exact h ▸ hle.trans (Nat.min_le_right _ _)
      · exact hbnd x h


/-- C6: when several errors with positive exit codes are recorded, the
final exit code is the minimum positive code seen; recording an error
onto a positive exit code never raises it and never produces zero. -/
theorem exit_code_minimum
    (c : Nat) (cs : List Nat)
    (hc : 0 < c) (hcs : ∀ x ∈ cs, 0 < x) :
    ((c :: cs).foldl Engine.update_exit_code 0 ∈ c :: cs ∧
      ∀ x ∈ c :: cs, (c :: cs).foldl Engine.update_exit_code 0 ≤ x) ∧
    (∀ cur code, 0 < code →
      (0 < cur → Engine.update_exit_code cur code ≤ cur) ∧
      Engine.update_exit_code cur code ≠ 0) := by
  have hzero : Engine.update_exit_code 0 c = c := by
    unfold Engine.update_exit_code
    rw [if_pos (by omega), if_neg (by omega)]
  have hfold : (c :: cs).foldl Engine.update_exit_code 0 =
      cs.foldl Engine.update_exit_code c := by
    rw [List.foldl_cons, hzero]
  obtain ⟨hmem, hle, hbnd⟩ := foldl_update_exit_code_pos cs c hc hcs
  refine ⟨⟨?_, ?_⟩, ?_⟩
  · rw [hfold]
    rcases hmem with h | h
    · rw [h]
      exact List.mem_cons_self _ _
    · exact List.mem_cons_of_mem _ h
  · intro x hx
    rw [hfold]
    rcases List.mem_cons.mp hx with h | h
    · exact h ▸ hle
    · exact hbnd x h
  · intro cur code hcode
    unfold Engine.update_exit_code
    by_cases hcur : cur = 0 <;>
      simp [hcur, Nat.pos_iff_ne_zero.mp hcode] <;>
      omega

/-- Witness for C6 on the codes 8, 4, 7. -/
theorem exit_code_minimum_witness :
    (0 < 8 ∧ ∀ x ∈ [4, 7], 0 < x) ∧
    ([8, 4, 7].foldl Engine.update_exit_code 0 ∈ [8, 4, 7] ∧
      ∀ x ∈ [8, 4, 7], [8, 4, 7].foldl Engine.update_exit_code 0 ≤ x) :=
  ⟨⟨by decide, by decide⟩, (exit_code_minimum 8 [4, 7] (by decide) (by decide)).1⟩

theorem update_status_rows (tbl : Table) (u s : String) (inc : Bool) :
    ∀ r ∈ SQLiteURLTable.update tbl u inc [.status s], r.url = u → r.status = s := by
  intro r hr hru
  rw [update_eq_updateAll, updateAll_eq_map] at hr
  obtain ⟨x, hx, hxe⟩ := List.mem_map.mp hr
  by_cases hxu : x.url = u
  · rw [if_pos hxu] at hxe
    rw [← hxe]
    rfl
  · rw [if_neg hxu] at hxe
    rw [← hxe] at hru
    exact absurd hru hxu

theorem set_status_ok (it : Item) (tbl : Table) (s : String)
    (hfl : it.try_count_incremented = false) :
    URLItem.set_status it tbl s =
      .ok (⟨it.url, true, true⟩, SQLiteURLTable.update tbl it.url true [.status s]) := by
  unfold URLItem.set_status
  rw [hfl]
  rfl

/-- C1: for every non-redirect response handled by a web session:
status 200/206/304 marks the item done and saves the document;
401/403/404/405/410 marks it skipped and discards the document; any
other status marks it error and increments the retry waiter. -/
theorem handle_response_classification
    (resp : HttpResponse) (inl lnk : List String) (st : SessionState)
    (hfresh : st.item.try_count_incremented = false)
    (hnored : resp.is_redirect = false) :
    (resp.status_code ∈ WebProcessor.DOCUMENT_STATUS_CODES →
      ∃ st2, WebProcessorSession.handle_response resp inl lnk st = .ok (true, st2) ∧
        (∀ r ∈ st2.table, r.url = st.item.url → r.status = Status.done) ∧
        st2.savedDocs = st.savedDocs + 1) ∧
    (resp.status_code ∉ WebProcessor.DOCUMENT_STATUS_CODES →
      resp.status_code ∈ WebProcessor.NO_DOCUMENT_STATUS_CODES →
      ∃ st2, WebProcessorSession.handle_response resp inl lnk st = .ok (true, st2) ∧
        (∀ r ∈ st2.table, r.url = st.item.url → r.status = Status.skipped) ∧
        st2.discardedDocs = st.discardedDocs + 1) ∧
    (resp.status_code ∉ WebProcessor.DOCUMENT_STATUS_CODES →
      resp.status_code ∉ WebProcessor.NO_DOCUMENT_STATUS_CODES →
      ∃ st2, WebProcessorSession.handle_response resp inl lnk st = .ok (true, st2) ∧
        (∀ r ∈ st2.table, r.url = st.item.url → r.status = Status.error) ∧
        st2.waiter = st.waiter + 1 ∧
        st2.discardedDocs = st.discardedDocs + 1) := by
  refine ⟨fun hmem => ?_, fun hn1 hmem => ?_, fun hn1 hn2 => ?_⟩
  · unfold WebProcessorSession.handle_response WebProcessorSession.handle_document
      WebProcessorSession.scrape_document
    rw [hnored]
    simp only [Bool.false_eq_true, if_false, if_pos hmem]
    rw [set_status_ok _ _ _ hfresh]
    exact ⟨_, rfl, fun r hr hru => update_status_rows _ _ _ _ r hr hru, rfl⟩
  · unfold WebProcessorSession.handle_response WebProcessorSession.handle_no_document
    rw [hnored]
    simp only [Bool.false_eq_true, if_false, if_neg hn1, if_pos hmem]
    rw [set_status_ok _ _ _ hfresh]
    exact ⟨_, rfl, fun r hr hru => update_status_rows _ _ _ _ r hr hru, rfl⟩
  · unfold WebProcessorSession.handle_response WebProcessorSession.handle_document_error
    rw [hnored]
    simp only [Bool.false_eq_true, if_false, if_neg hn1, if_neg hn2]
    rw [set_status_ok _ _ _ hfresh]
    exact ⟨_, rfl, fun r hr hru => update_status_rows _ _ _ _ r hr hru, rfl, rfl⟩


/-- C5: for every network or protocol error: `ConnectionRefused` skips
the item unless retry_connrefused is set, `DNSNotFound` skips it unless
retry_dns_error is set, anything else marks it error; in every case the
waiter is incremented and the session finishes the item. -/
theorem handle_error_classification
    (opts : ProcessorOptions) (err : FetchError) (st : SessionState)
    (hfresh : st.item.try_count_incremented = false) :
    ∃ st2, WebProcessorSession.handle_error opts err st = .ok (true, st2) ∧
      st2.waiter = st.waiter + 1 ∧ st2.item.processed = true ∧
      st2.errorTally = st.errorTally + 1 ∧
      (err = .connectionRefused → opts.retry_connrefused = false →
        ∀ r ∈ st2.table, r.url = st.item.url → r.status = Status.skipped) ∧
      (err = .dnsNotFound → opts.retry_dns_error = false →
        ∀ r ∈ st2.table, r.url = st.item.url → r.status = Status.skipped) ∧
      (err = .connectionRefused → opts.retry_connrefused = true →
        ∀ r ∈ st2.table, r.url = st.item.url → r.status = Status.error) ∧
      (err = .dnsNotFound → opts.retry_dns_error = true →
        ∀ r ∈ st2.table, r.url = st.item.url → r.status = Status.error) ∧
      (err = .otherNetworkOrProtocol →
        ∀ r ∈ st2.table, r.url = st.item.url → r.status = Status.error) := by
  unfold WebProcessorSession.handle_error
  dsimp only
  rw [set_status_ok _ _ _ hfresh]
  refine ⟨_, rfl, rfl, rfl, rfl, ?_, ?_, ?_, ?_, ?_⟩
  · intro he hfl r hr hru
    have hst := update_status_rows _ _ _ _ r hr hru
    simpa [he, hfl] using hst
  · intro he hfl r hr hru
    have hst := update_status_rows _ _ _ _ r hr hru
    simpa [he, hfl] using hst
  · intro he hfl r hr hru
    have hst := update_status_rows _ _ _ _ r hr hru
    simpa [he, hfl] using hst
  · intro he hfl r hr hru
    have hst := update_status_rows _ _ _ _ r hr hru
    simpa [he, hfl] using hst
  · intro he r hr hru
    have hst := update_status_rows _ _ _ _ r hr hru
    simpa [he] using hst

/-- Witness for C1: a 200 response is handled as a document. -/
theorem handle_response_classification_witness :
    (sampleState.item.try_count_incremented = false ∧
      (⟨200, false⟩ : HttpResponse).is_redirect = false ∧
      (200 : Int) ∈ WebProcessor.DOCUMENT_STATUS_CODES) ∧
    ∃ st2, WebProcessorSession.handle_response ⟨200, false⟩ [] [] sampleState =
        .ok (true, st2) ∧ st2.savedDocs = sampleState.savedDocs + 1 := by
  refine ⟨⟨rfl, rfl, by decide⟩, ?_⟩
  obtain ⟨st2, heq, _, hsaved⟩ :=
    (handle_response_classification ⟨200, false⟩ [] [] sampleState rfl rfl).1
      (by decide)
  exact ⟨st2, heq, hsaved⟩

/-- Witness for C5: a DNS error without retry-dns-error. -/
theorem handle_error_classification_witness :
    sampleState.item.try_count_incremented = false ∧
    ∃ st2, WebProcessorSession.handle_error ⟨false, false⟩ .dnsNotFound sampleState =
        .ok (true, st2) ∧ st2.waiter = sampleState.waiter + 1 := by
  refine ⟨rfl, ?_⟩
  obtain ⟨st2, heq, hw, _⟩ :=
    handle_error_classification ⟨false, false⟩ .dnsNotFound sampleState rfl
  exact ⟨st2, heq, hw⟩

/-- C8: `remove_one(url)` deletes exactly the row for url and keeps
every other row, and within `_add_hooked_url` it runs only on the
replace path: with `replace` unset the table goes straight to
`add_child_url` and no URL disappears. -/
theorem remove_one_replace_path
    (rec : Row) (t : Table) (url : String) (lt : Option String)
    (inl : Option Int) (pd : Option String) :
    (∀ r ∈ SQLiteURLTable.remove_one t url, r.url ≠ url) ∧
    (∀ r ∈ t, r.url ≠ url → r ∈ SQLiteURLTable.remove_one t url) ∧
    HookEnvironment.add_hooked_url rec t url lt inl pd true true =
      URLItem.add_child_url rec (SQLiteURLTable.remove_one t url) url inl lt pd ∧
    HookEnvironment.add_hooked_url rec t url lt inl pd false true =
      URLItem.add_child_url rec t url inl lt pd ∧
    ∀ v ∈ t.map Row.url,
      v ∈ (HookEnvironment.add_hooked_url rec t url lt inl pd false true).map Row.url := by
  refine ⟨?_, ?_, rfl, rfl, ?_⟩
  · intro r hr
    have := (List.mem_filter.mp hr).2
    simpa using this
  · intro r hr hne
    exact List.mem_filter.mpr ⟨hr, by simpa using hne⟩
  · intro v hv
    show v ∈ (URLItem.add_child_url rec t url inl lt pd).map Row.url
    unfold URLItem.add_child_url
    rw [add_eq_phases, url_map_updPhase]
    have hins : insPhase t [url] = SQLiteURLTable.insertOrIgnore t url := rfl
    rw [hins]
    by_cases hm : url ∈ t.map Row.url
    · rw [insertOrIgnore_of_mem hm]
      exact hv
    · rw [insertOrIgnore_of_not_mem hm, List.map_append]
      exact List.mem_append_left _ hv

/-- Witness for C8: removing then re-adding a concrete row. -/
theorem remove_one_replace_path_witness :
    HookEnvironment.add_hooked_url sampleRowDone c2Table "a" none none none true true =
      URLItem.add_child_url sampleRowDone (SQLiteURLTable.remove_one c2Table "a")
        "a" none none none ∧
    SQLiteURLTable.remove_one c2Table "a" = [] :=
  ⟨(remove_one_replace_path sampleRowDone c2Table "a" none none none).2.2.1,
    by decide⟩

theorem containsSub_iff (n : List Char) : ∀ h : List Char,
    containsSub n h = true ↔ n <:+: h := by
  intro h
  induction h with
  | nil =>
    simp [containsSub, List.isEmpty_iff, List.infix_nil]
  | cons c rest ih =>
    rw [containsSub, Bool.or_eq_true, List.isPrefixOf_iff_prefix, ih,
      List.infix_cons_iff]

theorem containsSub_append_left {n a : List Char} (b : List Char)
    (h : containsSub n a = true) : containsSub n (a ++ b) = true := by
  rw [containsSub_iff] at h ⊢
  exact h.trans (List.prefix_append a b).isInfix

theorem containsSub_take_append {n a : List Char} (b : List Char)
    (h : containsSub n a = true) (hl : a.length ≤ 4096) :
    containsSub n ((a ++ b).take 4096) = true := by
  rw [List.take_append_eq_append_take, List.take_of_length_le hl]
  exact containsSub_append_left _ h

theorem isFile_of_header (a b : List Char)
    (h1 : containsSub "<?xml".toList a = true)
    (h2 : containsSub "<sitemapindex".toList a = true ∨
      containsSub "<urlset".toList a = true)
    (hl : a.length ≤ 4096) :
    SitemapReader.is_file (a ++ b) = true := by
  unfold SitemapReader.is_file SitemapReader.PEEK_SIZE
  simp only [Bool.and_eq_true, Bool.or_eq_true]
  rcases h2 with h2 | h2
  · exact ⟨containsSub_take_append b h1 hl, Or.inl (containsSub_take_append b h2 hl)⟩
  · exact ⟨containsSub_take_append b h1 hl, Or.inr (containsSub_take_append b h2 hl)⟩

theorem isFile_serialize (d : SitemapDoc) :
    SitemapReader.is_file (serializeDoc d) = true := by
  have hassoc : serializeDoc d =
      (xmlDecl ++ ("<" ++ rootTag d.root ++ ">").toList) ++
        ((d.locs.map (entryChars d.root)).flatten ++
          ("</" ++ rootTag d.root ++ ">").toList) := by
    unfold serializeDoc
    rw [List.append_assoc, List.append_assoc]
  rw [hassoc]
  cases hroot : d.root
  case urlset =>
    exact isFile_of_header _ _ (by decide) (Or.inr (by decide)) (by decide)
  case sitemapindex =>
    exact isFile_of_header _ _ (by decide) (Or.inl (by decide)) (by decide)

theorem locFilter_docObjs (root : SitemapRoot) : ∀ (locs : List String),
    (∀ u ∈ locs, u ≠ "") →
    ((docObjs ⟨root, locs⟩).filterMap locFilter) = locs := by
  have hroot : locFilter (XmlObj.element (rootTag root) none) = none := rfl
  have hchild : locFilter (XmlObj.element (childTag root) none) = none := rfl
  intro locs
  induction locs with
  | nil =>
    intro _
    simp [docObjs, locFilter]
  | cons u us ih =>
    intro hne
    have hu : u ≠ "" := hne u (List.mem_cons_self _ _)
    have hie : u.isEmpty = false := by
      cases hiu : u.isEmpty
      · rfl
      · exact absurd ((String.isEmpty_iff u).mp hiu) hu
    have hloc : locFilter (XmlObj.element "loc" (some u)) = some u := by
      unfold locFilter
      simp [hie]
      decide
    have hrest := ih fun v hv => hne v (List.mem_cons_of_mem _ hv)
    have hother : locFilter XmlObj.other = none := rfl
    simp only [docObjs, List.map_cons, List.flatten_cons, List.filterMap_cons,
      hroot, hchild, hloc, hother, List.filterMap_append, List.filterMap_nil] at hrest ⊢
    rw [hrest]
    rfl


/-- C9: sitemap extraction reads at most 4096 bytes of a robots.txt
body and yields its `Sitemap:` directives; on an XML sitemap whose
root is urlset or sitemapindex it yields the text of every loc
element; a gzip-compressed body is transparently decompressed first. -/
theorem sitemap_iter_links_spec
    (parseFn : List Char → List XmlObj) (body : List Char) (d : SitemapDoc)
    (hrob : SitemapReader.is_file body = false)
    (hp : parseFn (serializeDoc d) = docObjs d)
    (hne : ∀ u ∈ d.locs, u ≠ "") :
    SitemapReader.iter_links parseFn (.plain body) =
      robotsSitemaps (body.take 4096) ∧
    SitemapReader.iter_links parseFn (.plain (serializeDoc d)) = d.locs ∧
    ∀ w : List Char, SitemapReader.iter_links parseFn (.gzipped w) =
      SitemapReader.iter_links parseFn (.plain w) := by
  refine ⟨?_, ?_, fun w => rfl⟩
  · simp only [SitemapReader.iter_links, Wire.content, hrob, Bool.false_eq_true,
      if_false]
    rfl
  · have hfile := isFile_serialize d
    simp only [SitemapReader.iter_links, Wire.content, hfile, if_true]
    rw [hp]
    exact locFilter_docObjs d.root d.locs hne

theorem sitemap_iter_links_spec_witness :
    (SitemapReader.is_file robotsBody = false ∧ ∀ u ∈ c9Doc.locs, u ≠ "") ∧
    SitemapReader.iter_links (fun _ => docObjs c9Doc) (.plain robotsBody) =
      robotsSitemaps (robotsBody.take 4096) ∧
    SitemapReader.iter_links (fun _ => docObjs c9Doc) (.plain (serializeDoc c9Doc)) =
      c9Doc.locs :=
  ⟨⟨by decide, by decide⟩,
    (sitemap_iter_links_spec (fun _ => docObjs c9Doc) robotsBody c9Doc (by decide) rfl
      (by decide)).1,
    (sitemap_iter_links_spec (fun _ => docObjs c9Doc) robotsBody c9Doc (by decide) rfl
      (by decide)).2.1⟩

end Wpull
